import Mathlib

/-!
Shallow embedding of the `rust-arc-cache` crate (`src/lib.rs`): an Adaptive
Replacement Cache built on four LRU lists, together with proofs about its
public operations.  Machine integers (`usize`, `u64`) are modelled as `Nat`;
all the arithmetic in the source is guarded so no wrap-around occurs on the
paths modelled here, and the guards are reproduced verbatim.
-/

set_option maxHeartbeats 1000000
set_option linter.unusedVariables false
set_option linter.unusedSectionVars false

/-- Modelled from the spec: the ordered key-to-value container used for all
four lists (`xlru_cache::LruCache`) is an external collaborator whose source is
not part of this repository; §6 of the spec gives its required contract.  We
model it as an association list ordered from least recently used (head) to
most recently used (tail). -/
structure LruCache (K : Type) (V : Type) where
  entries : List (K × V)
deriving DecidableEq

namespace LruCache

variable {K V : Type} [DecidableEq K]

/-- `LruCache::new` / `LruCache::with_hasher`: an empty container. -/
def new : LruCache K V := ⟨[]⟩

/-- `LruCache::len`. -/
def len (c : LruCache K V) : Nat := c.entries.length

/-- `LruCache::contains_key`: membership test, no reordering. -/
def contains_key (c : LruCache K V) (k : K) : Bool :=
  c.entries.any (fun e => decide (e.1 = k))

/-- Helper: drop every entry whose key is `k`. -/
def eraseKey (c : LruCache K V) (k : K) : LruCache K V :=
  ⟨c.entries.filter (fun e => !(decide (e.1 = k)))⟩

/-- The value currently associated to `k`, if any. -/
def lookup (c : LruCache K V) (k : K) : Option V :=
  (c.entries.find? (fun e => decide (e.1 = k))).map Prod.snd

/-- `LruCache::insert`: inserts or overwrites, positioning the entry as most
recently used. -/
def insert (c : LruCache K V) (k : K) (v : V) : LruCache K V :=
  ⟨(c.eraseKey k).entries ++ [(k, v)]⟩

/-- `LruCache::remove`: removes `k`, returning its value if it was present. -/
def remove (c : LruCache K V) (k : K) : Option V × LruCache K V :=
  (c.lookup k, c.eraseKey k)

/-- `LruCache::remove_lru`: evicts and returns the least recently used entry,
or nothing if the container is empty. -/
def remove_lru (c : LruCache K V) : Option (K × V) × LruCache K V :=
  match c.entries with
  | [] => (none, c)
  | e :: rest => (some e, ⟨rest⟩)

/-- `LruCache::get_mut`: returns the value and refreshes its recency. -/
def get_mut (c : LruCache K V) (k : K) : Option V × LruCache K V :=
  match c.lookup k with
  | none => (none, c)
  | some v => (some v, c.insert k v)

/-- `LruCache::peek_mut`: lookup without reordering. -/
def peek_mut (c : LruCache K V) (k : K) : Option V := c.lookup k

/-- `LruCache::clear`. -/
def clear (c : LruCache K V) : LruCache K V := ⟨[]⟩

/-- Keys are pairwise distinct.  Every list the cache ever builds satisfies
this. -/
def wfKeys (c : LruCache K V) : Prop := (c.entries.map Prod.fst).Nodup

end LruCache

/-- The cache state, mirroring the fields of `ArcCache<K, V, S>` in
`src/lib.rs` (the hash-builder `S` is a pass-through capability with no
algorithmic content and is not modelled). -/
structure ArcCache (K : Type) (V : Type) where
  recent_set : LruCache K V
  recent_evicted : LruCache K Unit
  frequent_set : LruCache K V
  frequent_evicted : LruCache K Unit
  capacity : Nat
  p : Nat
  inserted : Nat
  evicted : Nat
  removed : Nat
deriving DecidableEq

namespace ArcCache

variable {K V : Type} [DecidableEq K]

def capacityErrorMsg : String := "Cache length cannot be zero"

/-- `ArcCache::new(capacity)`. -/
def new (capacity : Nat) : Except String (ArcCache K V) :=
  if capacity = 0 then Except.error capacityErrorMsg
  else Except.ok
    { recent_set := LruCache.new
      recent_evicted := LruCache.new
      frequent_set := LruCache.new
      frequent_evicted := LruCache.new
      capacity := capacity
      p := 0
      inserted := 0
      evicted := 0
      removed := 0 }

/-- `ArcCache::contains_key`. -/
def contains_key (c : ArcCache K V) (k : K) : Bool :=
  c.frequent_set.contains_key k || c.recent_set.contains_key k

/-- The private `ArcCache::replace` helper. -/
def replace (c : ArcCache K V) (frequent_evicted_contains_key : Bool) :
    ArcCache K V :=
  let recent_set_len := c.recent_set.len
  if recent_set_len > 0 ∧ (recent_set_len > c.p ∨
      (recent_set_len = c.p ∧ frequent_evicted_contains_key = true)) then
    match c.recent_set.remove_lru with
    | (some old, rs) =>
      { c with recent_set := rs,
               recent_evicted := c.recent_evicted.insert old.1 () }
    | (none, rs) => { c with recent_set := rs }
  else
    match c.frequent_set.remove_lru with
    | (some old, fs) =>
      { c with frequent_set := fs,
               frequent_evicted := c.frequent_evicted.insert old.1 () }
    | (none, fs) => { c with frequent_set := fs }

/-- `ArcCache::insert`: returns whether the key was already cached, together
with the updated cache. -/
def insert (c : ArcCache K V) (key : K) (value : V) : Bool × ArcCache K V :=
  if c.frequent_set.contains_key key then
    (true, { c with frequent_set := c.frequent_set.insert key value })
  else if c.recent_set.contains_key key then
    (true, { c with recent_set := (c.recent_set.remove key).2,
                    frequent_set := c.frequent_set.insert key value })
  else if c.frequent_evicted.contains_key key then
    let recent_evicted_len := c.recent_evicted.len
    let frequent_evicted_len := c.frequent_evicted.len
    let delta := if recent_evicted_len > frequent_evicted_len then
        recent_evicted_len / frequent_evicted_len else 1
    let c1 := { c with p := if delta < c.p then c.p - delta else 0 }
    let c2 := if c1.recent_set.len + c1.frequent_set.len ≥ c1.capacity then
        c1.replace true else c1
    (true, { c2 with frequent_evicted := (c2.frequent_evicted.remove key).2,
                     frequent_set := c2.frequent_set.insert key value })
  else if c.recent_evicted.contains_key key then
    let recent_evicted_len := c.recent_evicted.len
    let frequent_evicted_len := c.frequent_evicted.len
    let delta := if frequent_evicted_len > recent_evicted_len then
        frequent_evicted_len / recent_evicted_len else 1
    let c1 := { c with p := if delta ≤ c.capacity - c.p then c.p + delta
        else c.capacity }
    let c2 := if c1.recent_set.len + c1.frequent_set.len ≥ c1.capacity then
        c1.replace false else c1
    (true, { c2 with recent_evicted := (c2.recent_evicted.remove key).2,
                     frequent_set := c2.frequent_set.insert key value })
  else
    let c1 := if c.recent_set.len + c.frequent_set.len ≥ c.capacity then
        c.replace false else c
    let c2 := if c1.recent_evicted.len > c1.capacity - c1.p then
        { c1 with recent_evicted := (c1.recent_evicted.remove_lru).2,
                  evicted := c1.evicted + 1 } else c1
    let c3 := if c2.frequent_evicted.len > c2.p then
        { c2 with frequent_evicted := (c2.frequent_evicted.remove_lru).2,
                  evicted := c2.evicted + 1 } else c2
    (false, { c3 with recent_set := c3.recent_set.insert key value,
                      inserted := c3.inserted + 1 })

/-- `ArcCache::peek_mut`: frequent list first, then recent, no reordering. -/
def peek_mut (c : ArcCache K V) (k : K) : Option V :=
  match c.frequent_set.peek_mut k with
  | some v => some v
  | none => c.recent_set.peek_mut k

/-- `ArcCache::get_mut`: promotes a recent entry into the frequent list, then
reads through the frequent list. -/
def get_mut (c : ArcCache K V) (k : K) : Option V × ArcCache K V :=
  let c' :=
    match c.recent_set.remove k with
    | (some value, rs) =>
      { c with recent_set := rs,
               frequent_set := c.frequent_set.insert k value }
    | (none, rs) => { c with recent_set := rs }
  match c'.frequent_set.get_mut k with
  | (res, fs) => (res, { c' with frequent_set := fs })

/-- `ArcCache::remove`. -/
def remove (c : ArcCache K V) (k : K) : Option V × ArcCache K V :=
  let removed_frequent := (c.frequent_set.remove k).1
  let removed_recent := (c.recent_set.remove k).1
  let c' := { c with frequent_set := (c.frequent_set.remove k).2,
                     recent_set := (c.recent_set.remove k).2,
                     frequent_evicted := (c.frequent_evicted.remove k).2,
                     recent_evicted := (c.recent_evicted.remove k).2 }
  match removed_frequent.or removed_recent with
  | some value => (some value, { c' with removed := c'.removed + 1 })
  | none => (none, c')

/-- `ArcCache::clear`. -/
def clear (c : ArcCache K V) : ArcCache K V :=
  { c with recent_set := c.recent_set.clear,
           recent_evicted := c.recent_evicted.clear,
           frequent_set := c.frequent_set.clear,
           frequent_evicted := c.frequent_evicted.clear }

/-- `ArcCache::len`. -/
def len (c : ArcCache K V) : Nat := c.recent_set.len + c.frequent_set.len

/-- `ArcCache::is_empty`. -/
def is_empty (c : ArcCache K V) : Bool := c.len = 0

/-- `ArcCache::frequent_len`. -/
def frequent_len (c : ArcCache K V) : Nat := c.frequent_set.len

/-- `ArcCache::recent_len`. -/
def recent_len (c : ArcCache K V) : Nat := c.recent_set.len

end ArcCache

/-- One public operation on the cache, used to quantify over arbitrary call
sequences.  The read-only queries (`len`, `is_empty`, counter getters) do not
touch the state and are represented by the state-preserving lookups. -/
inductive Op (K V : Type) where
  | insertOp (k : K) (v : V)
  | getMutOp (k : K)
  | peekMutOp (k : K)
  | containsKeyOp (k : K)
  | removeOp (k : K)
  | clearOp

namespace ArcCache

variable {K V : Type} [DecidableEq K]

/-- The state reached after one public operation. -/
def step (c : ArcCache K V) : Op K V → ArcCache K V
  | Op.insertOp k v => (c.insert k v).2
  | Op.getMutOp k => (c.get_mut k).2
  | Op.peekMutOp _ => c
  | Op.containsKeyOp _ => c
  | Op.removeOp k => (c.remove k).2
  | Op.clearOp => c.clear

/-- The state reached after a sequence of public operations. -/
def run (c : ArcCache K V) (ops : List (Op K V)) : ArcCache K V :=
  ops.foldl step c

/-- In how many of the four lists does `k` occur? -/
def locCount (c : ArcCache K V) (k : K) : Nat :=
  (c.recent_set.contains_key k).toNat + (c.frequent_set.contains_key k).toNat +
  (c.recent_evicted.contains_key k).toNat +
  (c.frequent_evicted.contains_key k).toNat

/-- Structural well-formedness: each of the four lists has pairwise distinct
keys. -/
def Wf (c : ArcCache K V) : Prop :=
  c.recent_set.wfKeys ∧ c.recent_evicted.wfKeys ∧
  c.frequent_set.wfKeys ∧ c.frequent_evicted.wfKeys

end ArcCache

namespace ArcCache

variable {K V : Type} [DecidableEq K]

/-- Number of ghost entries a cold-miss insert trims (mirrors the two trim
conditions of the cold branch of `insert`, evaluated on the state right
after the conditional `replace`). -/
def coldTrimCount (c : ArcCache K V) : Nat :=
  let c1 := if c.recent_set.len + c.frequent_set.len ≥ c.capacity then
      c.replace false else c
  (if c1.recent_evicted.len > c1.capacity - c1.p then 1 else 0) +
  (if c1.frequent_evicted.len > c1.p then 1 else 0)

end ArcCache

namespace LruCache

variable {K V : Type} [DecidableEq K]

theorem contains_key_erase (c : LruCache K V) (k k' : K) :
    (c.eraseKey k).contains_key k' =
      if k' = k then false else c.contains_key k' := by
  unfold eraseKey contains_key
  simp only [List.any_filter]
  by_cases h : k' = k
  · subst h
    rw [if_pos rfl, List.any_eq_false]
    intro e _
    by_cases he : e.1 = k' <;> simp [he]
  · rw [if_neg h]
    congr 1
    funext e
    by_cases he : e.1 = k'
    · have hek : ¬(e.1 = k) := fun hh => h (he.symm.trans hh)
      simp [he, hek, h]
    · simp [he]

theorem contains_key_insert (c : LruCache K V) (k k' : K) (v : V) :
    (c.insert k v).contains_key k' =
      if k' = k then true else c.contains_key k' := by
  show ((c.eraseKey k).entries ++ [(k, v)]).any
      (fun e => decide (e.1 = k')) = _
  rw [List.any_append]
  have h1 : (c.eraseKey k).entries.any (fun e => decide (e.1 = k')) =
      (c.eraseKey k).contains_key k' := rfl
  rw [h1, contains_key_erase]
  by_cases h : k' = k
  · simp [h]
  · have h2 : ¬(k = k') := fun hh => h hh.symm
    simp [h, h2]

theorem lookup_isSome (c : LruCache K V) (k : K) :
    (c.lookup k).isSome = c.contains_key k := by
  unfold lookup contains_key
  cases hf : c.entries.find? (fun e => decide (e.1 = k)) with
  | none =>
    rw [List.find?_eq_none] at hf
    simp [List.any_eq_false.mpr hf]
  | some e =>
    have hs : (c.entries.find? (fun e => decide (e.1 = k))).isSome = true := by
      rw [hf]; rfl
    rw [List.find?_isSome] at hs
    simp [List.any_eq_true.mpr hs]

theorem lookup_eq_none (c : LruCache K V) (k : K)
    (h : c.contains_key k = false) : c.lookup k = none := by
  unfold lookup
  unfold contains_key at h
  rw [List.any_eq_false] at h
  rw [List.find?_eq_none.mpr h]
  rfl

theorem lookup_insert_self (c : LruCache K V) (k : K) (v : V) :
    (c.insert k v).lookup k = some v := by
  have herase : (c.eraseKey k).contains_key k = false := by
    rw [contains_key_erase]; simp
  unfold lookup insert
  rw [List.find?_append]
  rw [List.find?_eq_none.mpr]
  · simp
  · unfold contains_key at herase
    rw [List.any_eq_false] at herase
    exact herase

theorem eraseKey_eq_self (c : LruCache K V) (k : K)
    (h : c.contains_key k = false) : c.eraseKey k = c := by
  rcases c with ⟨l⟩
  unfold contains_key at h
  rw [List.any_eq_false] at h
  unfold eraseKey
  simp only [LruCache.mk.injEq]
  rw [List.filter_eq_self]
  intro a ha
  simpa using h a ha

theorem remove_lru_snd_contains (c : LruCache K V) (k : K)
    (h : (c.remove_lru).2.contains_key k = true) :
    c.contains_key k = true := by
  rcases c with ⟨l⟩
  cases l with
  | nil => exact h
  | cons e rest =>
    unfold remove_lru at h
    unfold contains_key at h ⊢
    simp only at h
    rw [List.any_cons, h]
    simp

theorem remove_lru_fst_contains (c : LruCache K V) (e : K × V)
    (h : (c.remove_lru).1 = some e) : c.contains_key e.1 = true := by
  rcases c with ⟨l⟩
  cases l with
  | nil => simp [remove_lru] at h
  | cons e0 rest =>
    unfold remove_lru at h
    simp only [Option.some.injEq] at h
    subst h
    unfold contains_key
    simp [List.any_cons]

theorem remove_lru_fst_not_contains (c : LruCache K V) (e : K × V)
    (hwf : c.wfKeys) (h : (c.remove_lru).1 = some e) :
    (c.remove_lru).2.contains_key e.1 = false := by
  rcases c with ⟨l⟩
  cases l with
  | nil => simp [remove_lru] at h
  | cons e0 rest =>
    unfold remove_lru at h ⊢
    simp only [Option.some.injEq] at h
    subst h
    unfold wfKeys at hwf
    simp only [List.map_cons, List.nodup_cons] at hwf
    unfold contains_key
    simp only
    rw [List.any_eq_false]
    intro x hx hpx
    exact hwf.1 (List.mem_map.mpr ⟨x, hx, of_decide_eq_true hpx⟩)

theorem remove_lru_snd_contains_ne (c : LruCache K V) (e : K × V) (k : K)
    (h : (c.remove_lru).1 = some e) (hne : k ≠ e.1) :
    (c.remove_lru).2.contains_key k = c.contains_key k := by
  rcases c with ⟨l⟩
  cases l with
  | nil => simp [remove_lru] at h
  | cons e0 rest =>
    unfold remove_lru at h ⊢
    simp only [Option.some.injEq] at h
    subst h
    unfold contains_key
    simp only
    rw [List.any_cons]
    have : ¬(e0.1 = k) := fun hh => hne (hh ▸ rfl)
    simp [this]

theorem remove_lru_fst_none (c : LruCache K V)
    (h : (c.remove_lru).1 = none) : (c.remove_lru).2 = c := by
  rcases c with ⟨l⟩
  cases l with
  | nil => rfl
  | cons e rest => simp [remove_lru] at h

theorem wfKeys_erase (c : LruCache K V) (k : K) (h : c.wfKeys) :
    (c.eraseKey k).wfKeys := by
  unfold wfKeys eraseKey at *
  exact List.Nodup.sublist ((List.filter_sublist _).map Prod.fst) h

theorem wfKeys_insert (c : LruCache K V) (k : K) (v : V) (h : c.wfKeys) :
    (c.insert k v).wfKeys := by
  unfold wfKeys insert
  rw [List.map_append, List.nodup_append]
  refine ⟨wfKeys_erase c k h, List.nodup_singleton k, ?_⟩
  intro a ha hb
  simp only [List.map_cons, List.map_nil, List.mem_singleton] at hb
  subst hb
  rcases List.mem_map.mp ha with ⟨e, he, hek⟩
  have := List.mem_filter.mp he
  rw [hek] at this
  simp at this

theorem wfKeys_remove_lru (c : LruCache K V) (h : c.wfKeys) :
    (c.remove_lru).2.wfKeys := by
  rcases c with ⟨l⟩
  cases l with
  | nil => exact h
  | cons e rest =>
    unfold wfKeys at *
    simp only [List.map_cons, List.nodup_cons] at h
    exact h.2

theorem len_pos_of_contains (c : LruCache K V) (k : K)
    (h : c.contains_key k = true) : 0 < c.len := by
  unfold contains_key at h
  rw [List.any_eq_true] at h
  obtain ⟨x, hx, _⟩ := h
  exact List.length_pos.mpr (List.ne_nil_of_mem hx)

theorem contains_key_new (k : K) :
    (new : LruCache K V).contains_key k = false := rfl

theorem contains_key_clear (c : LruCache K V) (k : K) :
    (c.clear).contains_key k = false := rfl

theorem wfKeys_new : (new : LruCache K V).wfKeys := List.nodup_nil

theorem wfKeys_clear (c : LruCache K V) : (c.clear).wfKeys := List.nodup_nil

theorem remove_fst (c : LruCache K V) (k : K) : (c.remove k).1 = c.lookup k :=
  rfl

theorem remove_snd (c : LruCache K V) (k : K) :
    (c.remove k).2 = c.eraseKey k := rfl

theorem remove_lru_snd_contains_false (c : LruCache K V) (k : K)
    (h : c.contains_key k = false) :
    (c.remove_lru).2.contains_key k = false := by
  cases hx : (c.remove_lru).2.contains_key k
  · rfl
  · have := remove_lru_snd_contains c k hx
    rw [h] at this
    exact absurd this (by simp)

theorem get_mut_fst (c : LruCache K V) (k : K) :
    (c.get_mut k).1 = c.lookup k := by
  unfold get_mut
  cases hl : c.lookup k <;> simp

theorem get_mut_snd_contains (c : LruCache K V) (k k' : K) :
    (c.get_mut k).2.contains_key k' = c.contains_key k' := by
  unfold get_mut
  cases hl : c.lookup k with
  | none => rfl
  | some v =>
    simp only
    rw [contains_key_insert]
    by_cases h : k' = k
    · subst h
      have : (c.lookup k').isSome = true := by rw [hl]; rfl
      rw [lookup_isSome] at this
      simp [this]
    · simp [h]

theorem wfKeys_get_mut (c : LruCache K V) (k : K) (h : c.wfKeys) :
    (c.get_mut k).2.wfKeys := by
  unfold get_mut
  cases hl : c.lookup k with
  | none => exact h
  | some v => exact wfKeys_insert c k v h

end LruCache

/-- Comparison helper for counting Boolean memberships. -/
theorem boolToNat_le_of_imp {a b : Bool} (h : a = true → b = true) :
    a.toNat ≤ b.toNat := by
  cases a
  · simp
  · rw [h rfl]

namespace ArcCache

variable {K V : Type} [DecidableEq K]

theorem replace_frame (c : ArcCache K V) (f : Bool) :
    (c.replace f).capacity = c.capacity ∧ (c.replace f).p = c.p ∧
    (c.replace f).inserted = c.inserted ∧ (c.replace f).evicted = c.evicted ∧
    (c.replace f).removed = c.removed := by
  unfold replace
  dsimp only
  split
  · split <;> exact ⟨rfl, rfl, rfl, rfl, rfl⟩
  · split <;> exact ⟨rfl, rfl, rfl, rfl, rfl⟩

/-- Everything the invariant proofs need to know about one `replace` call:
it preserves key-distinctness and mutual exclusion, it never adds a key to a
live list, and it only touches the ghost entry of the key it evicts. -/
theorem replace_props (c : ArcCache K V) (f : Bool) (hwf : c.Wf)
    (hex : ∀ k, c.locCount k ≤ 1) :
    (c.replace f).Wf ∧ (∀ k, (c.replace f).locCount k ≤ 1) ∧
    (∀ k, c.recent_set.contains_key k = false →
      (c.replace f).recent_set.contains_key k = false) ∧
    (∀ k, c.frequent_set.contains_key k = false →
      (c.replace f).frequent_set.contains_key k = false) ∧
    (∀ k, c.recent_set.contains_key k = false →
      c.frequent_set.contains_key k = false →
      (c.replace f).recent_evicted.contains_key k =
        c.recent_evicted.contains_key k ∧
      (c.replace f).frequent_evicted.contains_key k =
        c.frequent_evicted.contains_key k) := by
  obtain ⟨hwr, hwrg, hwq, hwqg⟩ := hwf
  simp only [locCount] at hex
  unfold replace Wf locCount
  dsimp only
  split
  · split
    · rename_i old rs heq
      have h1 : (c.recent_set.remove_lru).1 = some old := by rw [heq]
      have h2 : (c.recent_set.remove_lru).2 = rs := by rw [heq]
      have hold : c.recent_set.contains_key old.1 = true :=
        LruCache.remove_lru_fst_contains _ _ h1
      have hrs_wf : rs.wfKeys := by
        have := LruCache.wfKeys_remove_lru c.recent_set hwr
        rwa [h2] at this
      have hrs_old : rs.contains_key old.1 = false := by
        have := LruCache.remove_lru_fst_not_contains c.recent_set old hwr h1
        rwa [h2] at this
      have hrs_ne : ∀ k, k ≠ old.1 →
          rs.contains_key k = c.recent_set.contains_key k := by
        intro k hk
        have := LruCache.remove_lru_snd_contains_ne c.recent_set old k h1 hk
        rwa [h2] at this
      refine ⟨⟨hrs_wf, LruCache.wfKeys_insert _ _ _ hwrg, hwq, hwqg⟩,
        ?_, ?_, ?_, ?_⟩
      · intro k
        dsimp only
        rw [LruCache.contains_key_insert]
        by_cases hk : k = old.1
        · have hc := hex k
          have hrec : c.recent_set.contains_key k = true := by
            rw [hk]; exact hold
          have hrsk : rs.contains_key k = false := by
            rw [hk]; exact hrs_old
          rw [hrec] at hc
          rw [hrsk, if_pos hk]
          have b1 := Bool.toNat_le (c.frequent_set.contains_key k)
          have b2 := Bool.toNat_le (c.recent_evicted.contains_key k)
          have b3 := Bool.toNat_le (c.frequent_evicted.contains_key k)
          simp only [Bool.toNat_true] at hc
          simp only [Bool.toNat_false, Bool.toNat_true]
          omega
        · rw [hrs_ne k hk, if_neg hk]
          exact hex k
      · intro k hkr
        dsimp only
        by_cases hk : k = old.1
        · rw [hk, hold] at hkr; exact absurd hkr (by simp)
        · rw [hrs_ne k hk]; exact hkr
      · intro k hkf
        exact hkf
      · intro k hkr hkf
        refine ⟨?_, rfl⟩
        dsimp only
        rw [LruCache.contains_key_insert]
        have hk : ¬(k = old.1) := by
          intro hk
          rw [hk, hold] at hkr
          exact absurd hkr (by simp)
        rw [if_neg hk]
    · rename_i rs heq
      have h1 : (c.recent_set.remove_lru).1 = none := by rw [heq]
      have h2 : rs = c.recent_set := by
        have := LruCache.remove_lru_fst_none c.recent_set h1
        rw [heq] at this
        exact this
      subst h2
      exact ⟨⟨hwr, hwrg, hwq, hwqg⟩, hex, fun k h => h, fun k h => h,
        fun k h1 h2 => ⟨rfl, rfl⟩⟩
  · split
    · rename_i old fs heq
      have h1 : (c.frequent_set.remove_lru).1 = some old := by rw [heq]
      have h2 : (c.frequent_set.remove_lru).2 = fs := by rw [heq]
      have hold : c.frequent_set.contains_key old.1 = true :=
        LruCache.remove_lru_fst_contains _ _ h1
      have hfs_wf : fs.wfKeys := by
        have := LruCache.wfKeys_remove_lru c.frequent_set hwq
        rwa [h2] at this
      have hfs_old : fs.contains_key old.1 = false := by
        have := LruCache.remove_lru_fst_not_contains c.frequent_set old hwq h1
        rwa [h2] at this
      have hfs_ne : ∀ k, k ≠ old.1 →
          fs.contains_key k = c.frequent_set.contains_key k := by
        intro k hk
        have := LruCache.remove_lru_snd_contains_ne c.frequent_set old k h1 hk
        rwa [h2] at this
      refine ⟨⟨hwr, hwrg, hfs_wf, LruCache.wfKeys_insert _ _ _ hwqg⟩,
        ?_, ?_, ?_, ?_⟩
      · intro k
        dsimp only
        rw [LruCache.contains_key_insert]
        by_cases hk : k = old.1
        · have hc := hex k
          have hfre : c.frequent_set.contains_key k = true := by
            rw [hk]; exact hold
          have hfsk : fs.contains_key k = false := by
            rw [hk]; exact hfs_old
          rw [hfre] at hc
          rw [hfsk, if_pos hk]
          have b1 := Bool.toNat_le (c.recent_set.contains_key k)
          have b2 := Bool.toNat_le (c.recent_evicted.contains_key k)
          have b3 := Bool.toNat_le (c.frequent_evicted.contains_key k)
          simp only [Bool.toNat_true] at hc
          simp only [Bool.toNat_false, Bool.toNat_true]
          omega
        · rw [hfs_ne k hk, if_neg hk]
          exact hex k
      · intro k hkr
        exact hkr
      · intro k hkf
        dsimp only
        by_cases hk : k = old.1
        · rw [hk, hold] at hkf; exact absurd hkf (by simp)
        · rw [hfs_ne k hk]; exact hkf
      · intro k hkr hkf
        refine ⟨rfl, ?_⟩
        dsimp only
        rw [LruCache.contains_key_insert]
        have hk : ¬(k = old.1) := by
          intro hk
          rw [hk, hold] at hkf
          exact absurd hkf (by simp)
        rw [if_neg hk]
    · rename_i fs heq
      have h1 : (c.frequent_set.remove_lru).1 = none := by rw [heq]
      have h2 : fs = c.frequent_set := by
        have := LruCache.remove_lru_fst_none c.frequent_set h1
        rw [heq] at this
        exact this
      subst h2
      exact ⟨⟨hwr, hwrg, hwq, hwqg⟩, hex, fun k h => h, fun k h => h,
        fun k h1 h2 => ⟨rfl, rfl⟩⟩

theorem insert_eq_frequent_hit (c : ArcCache K V) (k : K) (v : V)
    (h1 : c.frequent_set.contains_key k = true) :
    c.insert k v =
      (true, { c with frequent_set := c.frequent_set.insert k v }) := by
  unfold insert
  rw [if_pos h1]

theorem insert_eq_recent_hit (c : ArcCache K V) (k : K) (v : V)
    (h1 : c.frequent_set.contains_key k = false)
    (h2 : c.recent_set.contains_key k = true) :
    c.insert k v =
      (true, { c with recent_set := (c.recent_set.remove k).2,
                      frequent_set := c.frequent_set.insert k v }) := by
  unfold insert
  rw [if_neg (by rw [h1]; simp), if_pos h2]

theorem insert_eq_fg_hit (c : ArcCache K V) (k : K) (v : V)
    (h1 : c.frequent_set.contains_key k = false)
    (h2 : c.recent_set.contains_key k = false)
    (h3 : c.frequent_evicted.contains_key k = true) :
    c.insert k v =
      (true,
        let delta := if c.recent_evicted.len > c.frequent_evicted.len then
            c.recent_evicted.len / c.frequent_evicted.len else 1
        let c1 : ArcCache K V :=
          { c with p := if delta < c.p then c.p - delta else 0 }
        let c2 := if c1.recent_set.len + c1.frequent_set.len ≥ c1.capacity then
            c1.replace true else c1
        { c2 with frequent_evicted := (c2.frequent_evicted.remove k).2,
                  frequent_set := c2.frequent_set.insert k v }) := by
  unfold insert
  rw [if_neg (by rw [h1]; simp), if_neg (by rw [h2]; simp), if_pos h3]

theorem insert_eq_rg_hit (c : ArcCache K V) (k : K) (v : V)
    (h1 : c.frequent_set.contains_key k = false)
    (h2 : c.recent_set.contains_key k = false)
    (h3 : c.frequent_evicted.contains_key k = false)
    (h4 : c.recent_evicted.contains_key k = true) :
    c.insert k v =
      (true,
        let delta := if c.frequent_evicted.len > c.recent_evicted.len then
            c.frequent_evicted.len / c.recent_evicted.len else 1
        let c1 : ArcCache K V :=
          { c with p := if delta ≤ c.capacity - c.p then c.p + delta
              else c.capacity }
        let c2 := if c1.recent_set.len + c1.frequent_set.len ≥ c1.capacity then
            c1.replace false else c1
        { c2 with recent_evicted := (c2.recent_evicted.remove k).2,
                  frequent_set := c2.frequent_set.insert k v }) := by
  unfold insert
  rw [if_neg (by rw [h1]; simp), if_neg (by rw [h2]; simp),
    if_neg (by rw [h3]; simp), if_pos h4]

theorem insert_eq_cold (c : ArcCache K V) (k : K) (v : V)
    (h1 : c.frequent_set.contains_key k = false)
    (h2 : c.recent_set.contains_key k = false)
    (h3 : c.frequent_evicted.contains_key k = false)
    (h4 : c.recent_evicted.contains_key k = false) :
    c.insert k v =
      (false,
        let c1 := if c.recent_set.len + c.frequent_set.len ≥ c.capacity then
            c.replace false else c
        let c2 := if c1.recent_evicted.len > c1.capacity - c1.p then
            { c1 with recent_evicted := (c1.recent_evicted.remove_lru).2,
                      evicted := c1.evicted + 1 } else c1
        let c3 := if c2.frequent_evicted.len > c2.p then
            { c2 with frequent_evicted := (c2.frequent_evicted.remove_lru).2,
                      evicted := c2.evicted + 1 } else c2
        { c3 with recent_set := c3.recent_set.insert k v,
                  inserted := c3.inserted + 1 }) := by
  unfold insert
  rw [if_neg (by rw [h1]; simp), if_neg (by rw [h2]; simp),
    if_neg (by rw [h3]; simp), if_neg (by rw [h4]; simp)]

/-- If a key is in one of the four lists and mutual exclusion holds for it,
it is in none of the other three. -/
theorem locCount_parts (c : ArcCache K V) (k : K) (hex : c.locCount k ≤ 1) :
    (c.recent_set.contains_key k = true →
      c.frequent_set.contains_key k = false ∧
      c.recent_evicted.contains_key k = false ∧
      c.frequent_evicted.contains_key k = false) ∧
    (c.frequent_set.contains_key k = true →
      c.recent_set.contains_key k = false ∧
      c.recent_evicted.contains_key k = false ∧
      c.frequent_evicted.contains_key k = false) ∧
    (c.recent_evicted.contains_key k = true →
      c.recent_set.contains_key k = false ∧
      c.frequent_set.contains_key k = false ∧
      c.frequent_evicted.contains_key k = false) ∧
    (c.frequent_evicted.contains_key k = true →
      c.recent_set.contains_key k = false ∧
      c.frequent_set.contains_key k = false ∧
      c.recent_evicted.contains_key k = false) := by
  unfold locCount at hex
  cases hb1 : c.recent_set.contains_key k <;>
    cases hb2 : c.frequent_set.contains_key k <;>
      cases hb3 : c.recent_evicted.contains_key k <;>
        cases hb4 : c.frequent_evicted.contains_key k <;>
          rw [hb1, hb2, hb3, hb4] at hex <;>
            simp_all

/-- Moving a key from the frequent ghost list into the frequent list keeps
the lists well formed and mutually exclusive. -/
theorem promote_from_fg_props (cc : ArcCache K V) (k : K) (v : V)
    (hwf : cc.Wf) (hex : ∀ k', cc.locCount k' ≤ 1)
    (hr : cc.recent_set.contains_key k = false)
    (hrg : cc.recent_evicted.contains_key k = false) :
    ({ cc with frequent_evicted := (cc.frequent_evicted.remove k).2,
               frequent_set := cc.frequent_set.insert k v } :
      ArcCache K V).Wf ∧
    ∀ k', ({ cc with frequent_evicted := (cc.frequent_evicted.remove k).2,
                     frequent_set := cc.frequent_set.insert k v } :
      ArcCache K V).locCount k' ≤ 1 := by
  obtain ⟨w1, w2, w3, w4⟩ := hwf
  simp only [locCount] at hex
  refine ⟨⟨w1, w2, LruCache.wfKeys_insert _ _ _ w3,
    LruCache.remove_snd cc.frequent_evicted k ▸
      LruCache.wfKeys_erase _ _ w4⟩, ?_⟩
  intro k'
  unfold locCount
  dsimp only
  rw [LruCache.remove_snd, LruCache.contains_key_insert,
    LruCache.contains_key_erase]
  by_cases hk : k' = k
  · rw [if_pos hk, if_pos hk]
    have hr' : cc.recent_set.contains_key k' = false := by rw [hk]; exact hr
    have hrg' : cc.recent_evicted.contains_key k' = false := by
      rw [hk]; exact hrg
    rw [hr', hrg']
    simp
  · rw [if_neg hk, if_neg hk]
    exact hex k'

/-- Moving a key from the recent ghost list into the frequent list keeps the
lists well formed and mutually exclusive. -/
theorem promote_from_rg_props (cc : ArcCache K V) (k : K) (v : V)
    (hwf : cc.Wf) (hex : ∀ k', cc.locCount k' ≤ 1)
    (hr : cc.recent_set.contains_key k = false)
    (hfg : cc.frequent_evicted.contains_key k = false) :
    ({ cc with recent_evicted := (cc.recent_evicted.remove k).2,
               frequent_set := cc.frequent_set.insert k v } :
      ArcCache K V).Wf ∧
    ∀ k', ({ cc with recent_evicted := (cc.recent_evicted.remove k).2,
                     frequent_set := cc.frequent_set.insert k v } :
      ArcCache K V).locCount k' ≤ 1 := by
  obtain ⟨w1, w2, w3, w4⟩ := hwf
  simp only [locCount] at hex
  refine ⟨⟨w1, LruCache.remove_snd cc.recent_evicted k ▸
    LruCache.wfKeys_erase _ _ w2, LruCache.wfKeys_insert _ _ _ w3, w4⟩, ?_⟩
  intro k'
  unfold locCount
  dsimp only
  rw [LruCache.remove_snd, LruCache.contains_key_insert,
    LruCache.contains_key_erase]
  by_cases hk : k' = k
  · rw [if_pos hk, if_pos hk]
    have hr' : cc.recent_set.contains_key k' = false := by rw [hk]; exact hr
    have hfg' : cc.frequent_evicted.contains_key k' = false := by
      rw [hk]; exact hfg
    rw [hr', hfg']
    simp
  · rw [if_neg hk, if_neg hk]
    exact hex k'

/-- Setting `p` and running the conditional `replace` step of a ghost hit:
all the structural facts survive. -/
theorem ghost_hit_step_props (c : ArcCache K V) (np : Nat) (flag : Bool)
    (hwf : c.Wf) (hex : ∀ k', c.locCount k' ≤ 1) :
    (let c1 : ArcCache K V := { c with p := np }
     let c2 := if c1.recent_set.len + c1.frequent_set.len ≥ c1.capacity then
        c1.replace flag else c1
     c2.Wf ∧ (∀ k', c2.locCount k' ≤ 1) ∧
     (∀ k, c.recent_set.contains_key k = false →
       c2.recent_set.contains_key k = false) ∧
     (∀ k, c.frequent_set.contains_key k = false →
       c2.frequent_set.contains_key k = false) ∧
     (∀ k, c.recent_set.contains_key k = false →
       c.frequent_set.contains_key k = false →
       c2.recent_evicted.contains_key k = c.recent_evicted.contains_key k ∧
       c2.frequent_evicted.contains_key k =
         c.frequent_evicted.contains_key k)) := by
  dsimp only
  by_cases hcond : c.recent_set.len + c.frequent_set.len ≥ c.capacity
  · rw [if_pos hcond]
    exact replace_props { c with p := np } flag hwf hex
  · rw [if_neg hcond]
    exact ⟨hwf, hex, fun k h => h, fun k h => h, fun k h1 h2 => ⟨rfl, rfl⟩⟩

/-- Trimming the recent ghost list. -/
theorem trim_rg_props (cc : ArcCache K V) (hwf : cc.Wf)
    (hex : ∀ k', cc.locCount k' ≤ 1) :
    ({ cc with recent_evicted := (cc.recent_evicted.remove_lru).2,
               evicted := cc.evicted + 1 } : ArcCache K V).Wf ∧
    (∀ k', ({ cc with recent_evicted := (cc.recent_evicted.remove_lru).2,
                      evicted := cc.evicted + 1 } :
      ArcCache K V).locCount k' ≤ 1) ∧
    (∀ k, cc.recent_evicted.contains_key k = false →
      ((cc.recent_evicted.remove_lru).2).contains_key k = false) := by
  obtain ⟨w1, w2, w3, w4⟩ := hwf
  refine ⟨⟨w1, LruCache.wfKeys_remove_lru _ w2, w3, w4⟩, ?_, ?_⟩
  · intro k'
    have hmono := boolToNat_le_of_imp
      (LruCache.remove_lru_snd_contains cc.recent_evicted k')
    have := hex k'
    unfold locCount at this ⊢
    dsimp only
    omega
  · intro k hk
    exact LruCache.remove_lru_snd_contains_false _ _ hk

/-- Trimming the frequent ghost list. -/
theorem trim_fg_props (cc : ArcCache K V) (hwf : cc.Wf)
    (hex : ∀ k', cc.locCount k' ≤ 1) :
    ({ cc with frequent_evicted := (cc.frequent_evicted.remove_lru).2,
               evicted := cc.evicted + 1 } : ArcCache K V).Wf ∧
    (∀ k', ({ cc with frequent_evicted := (cc.frequent_evicted.remove_lru).2,
                      evicted := cc.evicted + 1 } :
      ArcCache K V).locCount k' ≤ 1) ∧
    (∀ k, cc.frequent_evicted.contains_key k = false →
      ((cc.frequent_evicted.remove_lru).2).contains_key k = false) := by
  obtain ⟨w1, w2, w3, w4⟩ := hwf
  refine ⟨⟨w1, w2, w3, LruCache.wfKeys_remove_lru _ w4⟩, ?_, ?_⟩
  · intro k'
    have hmono := boolToNat_le_of_imp
      (LruCache.remove_lru_snd_contains cc.frequent_evicted k')
    have := hex k'
    unfold locCount at this ⊢
    dsimp only
    omega
  · intro k hk
    exact LruCache.remove_lru_snd_contains_false _ _ hk

/-- The final move of a cold miss: insert the key into the recent list. -/
theorem cold_insert_final_props (cc : ArcCache K V) (k : K) (v : V)
    (hwf : cc.Wf) (hex : ∀ k', cc.locCount k' ≤ 1)
    (hfk : cc.frequent_set.contains_key k = false)
    (hrgk : cc.recent_evicted.contains_key k = false)
    (hfgk : cc.frequent_evicted.contains_key k = false) :
    ({ cc with recent_set := cc.recent_set.insert k v,
               inserted := cc.inserted + 1 } : ArcCache K V).Wf ∧
    ∀ k', ({ cc with recent_set := cc.recent_set.insert k v,
                     inserted := cc.inserted + 1 } :
      ArcCache K V).locCount k' ≤ 1 := by
  obtain ⟨w1, w2, w3, w4⟩ := hwf
  simp only [locCount] at hex
  refine ⟨⟨LruCache.wfKeys_insert _ _ _ w1, w2, w3, w4⟩, ?_⟩
  intro k'
  unfold locCount
  dsimp only
  rw [LruCache.contains_key_insert]
  by_cases hk : k' = k
  · rw [if_pos hk]
    have e1 : cc.frequent_set.contains_key k' = false := by rw [hk]; exact hfk
    have e2 : cc.recent_evicted.contains_key k' = false := by
      rw [hk]; exact hrgk
    have e3 : cc.frequent_evicted.contains_key k' = false := by
      rw [hk]; exact hfgk
    rw [e1, e2, e3]
    simp
  · rw [if_neg hk]
    exact hex k'

/-- The whole cold-miss tail (both ghost trims plus the final insert). -/
theorem cold_tail_props (cc : ArcCache K V) (k : K) (v : V)
    (hwf : cc.Wf) (hex : ∀ k', cc.locCount k' ≤ 1)
    (hfk : cc.frequent_set.contains_key k = false)
    (hrgk : cc.recent_evicted.contains_key k = false)
    (hfgk : cc.frequent_evicted.contains_key k = false) :
    (let c2 := if cc.recent_evicted.len > cc.capacity - cc.p then
        { cc with recent_evicted := (cc.recent_evicted.remove_lru).2,
                  evicted := cc.evicted + 1 } else cc
     let c3 := if c2.frequent_evicted.len > c2.p then
        { c2 with frequent_evicted := (c2.frequent_evicted.remove_lru).2,
                  evicted := c2.evicted + 1 } else c2
     ({ c3 with recent_set := c3.recent_set.insert k v,
                inserted := c3.inserted + 1 } : ArcCache K V).Wf ∧
     ∀ k', ({ c3 with recent_set := c3.recent_set.insert k v,
                      inserted := c3.inserted + 1 } :
       ArcCache K V).locCount k' ≤ 1) := by
  dsimp only
  by_cases t1 : cc.recent_evicted.len > cc.capacity - cc.p
  · rw [if_pos t1]
    obtain ⟨w2, ex2, pres2⟩ := trim_rg_props cc ⟨hwf.1, hwf.2.1, hwf.2.2.1,
      hwf.2.2.2⟩ hex
    by_cases t2 : cc.frequent_evicted.len > cc.p
    · rw [if_pos t2]
      obtain ⟨w3, ex3, pres3⟩ := trim_fg_props _ w2 ex2
      exact cold_insert_final_props _ k v w3 ex3 hfk (pres2 k hrgk)
        (pres3 k hfgk)
    · rw [if_neg t2]
      exact cold_insert_final_props _ k v w2 ex2 hfk (pres2 k hrgk) hfgk
  · rw [if_neg t1]
    by_cases t2 : cc.frequent_evicted.len > cc.p
    · rw [if_pos t2]
      obtain ⟨w3, ex3, pres3⟩ := trim_fg_props cc hwf hex
      exact cold_insert_final_props _ k v w3 ex3 hfk hrgk (pres3 k hfgk)
    · rw [if_neg t2]
      exact cold_insert_final_props cc k v hwf hex hfk hrgk hfgk

/-- `insert` keeps the four lists well formed and mutually exclusive. -/
theorem insert_props (c : ArcCache K V) (k : K) (v : V) (hwf : c.Wf)
    (hex : ∀ k', c.locCount k' ≤ 1) :
    (c.insert k v).2.Wf ∧ ∀ k', (c.insert k v).2.locCount k' ≤ 1 := by
  by_cases h1 : c.frequent_set.contains_key k = true
  · rw [insert_eq_frequent_hit c k v h1]
    obtain ⟨w1, w2, w3, w4⟩ := hwf
    refine ⟨⟨w1, w2, LruCache.wfKeys_insert _ _ _ w3, w4⟩, ?_⟩
    intro k'
    unfold locCount
    dsimp only
    rw [LruCache.contains_key_insert]
    by_cases hk : k' = k
    · rw [if_pos hk]
      obtain ⟨e1, e2, e3⟩ := (locCount_parts c k (hex k)).2.1 h1
      have f1 : c.recent_set.contains_key k' = false := by rw [hk]; exact e1
      have f2 : c.recent_evicted.contains_key k' = false := by
        rw [hk]; exact e2
      have f3 : c.frequent_evicted.contains_key k' = false := by
        rw [hk]; exact e3
      rw [f1, f2, f3]
      simp
    · rw [if_neg hk]
      have := hex k'
      unfold locCount at this
      exact this
  · simp only [Bool.not_eq_true] at h1
    by_cases h2 : c.recent_set.contains_key k = true
    · rw [insert_eq_recent_hit c k v h1 h2]
      obtain ⟨w1, w2, w3, w4⟩ := hwf
      refine ⟨⟨LruCache.remove_snd c.recent_set k ▸
        LruCache.wfKeys_erase _ _ w1, w2,
        LruCache.wfKeys_insert _ _ _ w3, w4⟩, ?_⟩
      intro k'
      unfold locCount
      dsimp only
      rw [LruCache.remove_snd, LruCache.contains_key_erase,
        LruCache.contains_key_insert]
      by_cases hk : k' = k
      · rw [if_pos hk, if_pos hk]
        obtain ⟨e1, e2, e3⟩ := (locCount_parts c k (hex k)).1 h2
        have f2 : c.recent_evicted.contains_key k' = false := by
          rw [hk]; exact e2
        have f3 : c.frequent_evicted.contains_key k' = false := by
          rw [hk]; exact e3
        rw [f2, f3]
        simp
      · rw [if_neg hk, if_neg hk]
        have := hex k'
        unfold locCount at this
        exact this
    · simp only [Bool.not_eq_true] at h2
      by_cases h3 : c.frequent_evicted.contains_key k = true
      · rw [insert_eq_fg_hit c k v h1 h2 h3]
        dsimp only
        obtain ⟨e1, e2, e3⟩ := (locCount_parts c k (hex k)).2.2.2 h3
        have hg := ghost_hit_step_props c
          (if (if c.recent_evicted.len > c.frequent_evicted.len then
              c.recent_evicted.len / c.frequent_evicted.len else 1) < c.p then
            c.p - (if c.recent_evicted.len > c.frequent_evicted.len then
              c.recent_evicted.len / c.frequent_evicted.len else 1) else 0)
          true hwf hex
        dsimp only at hg
        obtain ⟨gw, gex, gr, gf, gg⟩ := hg
        have hggk := gg k h2 h1
        exact promote_from_fg_props _ k v gw gex (gr k h2)
          (by rw [hggk.1]; exact e3)
      · simp only [Bool.not_eq_true] at h3
        by_cases h4 : c.recent_evicted.contains_key k = true
        · rw [insert_eq_rg_hit c k v h1 h2 h3 h4]
          dsimp only
          obtain ⟨e1, e2, e3⟩ := (locCount_parts c k (hex k)).2.2.1 h4
          have hg := ghost_hit_step_props c
            (if (if c.frequent_evicted.len > c.recent_evicted.len then
                c.frequent_evicted.len / c.recent_evicted.len else 1) ≤
                c.capacity - c.p then
              c.p + (if c.frequent_evicted.len > c.recent_evicted.len then
                c.frequent_evicted.len / c.recent_evicted.len else 1)
              else c.capacity)
            false hwf hex
          dsimp only at hg
          obtain ⟨gw, gex, gr, gf, gg⟩ := hg
          have hggk := gg k h2 h1
          exact promote_from_rg_props _ k v gw gex (gr k h2)
            (by rw [hggk.2]; exact e3)
        · simp only [Bool.not_eq_true] at h4
          rw [insert_eq_cold c k v h1 h2 h3 h4]
          dsimp only
          by_cases hcond : c.recent_set.len + c.frequent_set.len ≥ c.capacity
          · rw [if_pos hcond]
            obtain ⟨gw, gex, gr, gf, gg⟩ := replace_props c false hwf hex
            have hggk := gg k h2 h1
            have := cold_tail_props (c.replace false) k v gw gex (gf k h1)
              (by rw [hggk.1]; exact h4) (by rw [hggk.2]; exact h3)
            dsimp only at this
            exact this
          · rw [if_neg hcond]
            have := cold_tail_props c k v hwf hex h1 h4 h3
            dsimp only at this
            exact this

/-- `get_mut` keeps the four lists well formed and mutually exclusive. -/
theorem get_mut_props (c : ArcCache K V) (k : K) (hwf : c.Wf)
    (hex : ∀ k', c.locCount k' ≤ 1) :
    (c.get_mut k).2.Wf ∧ ∀ k', (c.get_mut k).2.locCount k' ≤ 1 := by
  obtain ⟨w1, w2, w3, w4⟩ := hwf
  unfold get_mut
  cases hl : c.recent_set.lookup k with
  | none =>
    simp only [LruCache.remove, hl]
    cases hl2 : c.frequent_set.lookup k with
    | none =>
      simp only [LruCache.get_mut, hl2]
      refine ⟨⟨LruCache.wfKeys_erase _ _ w1, w2, w3, w4⟩, ?_⟩
      intro k'
      unfold locCount
      dsimp only
      rw [LruCache.contains_key_erase]
      by_cases hk : k' = k
      · rw [if_pos hk]
        have := hex k'
        unfold locCount at this
        have b := Bool.toNat_le (c.recent_set.contains_key k')
        simp only [Bool.toNat_false]
        omega
      · rw [if_neg hk]
        have := hex k'
        unfold locCount at this
        exact this
    | some value =>
      simp only [LruCache.get_mut, hl2]
      have hcf : c.frequent_set.contains_key k = true := by
        rw [← LruCache.lookup_isSome, hl2]; rfl
      obtain ⟨e1, e2, e3⟩ := (locCount_parts c k (hex k)).2.1 hcf
      refine ⟨⟨LruCache.wfKeys_erase _ _ w1, w2,
        LruCache.wfKeys_insert _ _ _ w3, w4⟩, ?_⟩
      intro k'
      unfold locCount
      dsimp only
      rw [LruCache.contains_key_erase, LruCache.contains_key_insert]
      by_cases hk : k' = k
      · rw [if_pos hk, if_pos hk]
        have f2 : c.recent_evicted.contains_key k' = false := by
          rw [hk]; exact e2
        have f3 : c.frequent_evicted.contains_key k' = false := by
          rw [hk]; exact e3
        rw [f2, f3]
        simp
      · rw [if_neg hk, if_neg hk]
        have := hex k'
        unfold locCount at this
        exact this
  | some value =>
    simp only [LruCache.remove, hl]
    have hcr : c.recent_set.contains_key k = true := by
      rw [← LruCache.lookup_isSome, hl]; rfl
    obtain ⟨e1, e2, e3⟩ := (locCount_parts c k (hex k)).1 hcr
    cases hl2 : (c.frequent_set.insert k value).lookup k with
    | none =>
      rw [LruCache.lookup_insert_self] at hl2
      simp at hl2
    | some value2 =>
      simp only [LruCache.get_mut, hl2]
      refine ⟨⟨LruCache.wfKeys_erase _ _ w1, w2,
        LruCache.wfKeys_insert _ _ _ (LruCache.wfKeys_insert _ _ _ w3),
        w4⟩, ?_⟩
      intro k'
      unfold locCount
      dsimp only
      rw [LruCache.contains_key_erase, LruCache.contains_key_insert,
        LruCache.contains_key_insert]
      by_cases hk : k' = k
      · rw [if_pos hk, if_pos hk]
        have f2 : c.recent_evicted.contains_key k' = false := by
          rw [hk]; exact e2
        have f3 : c.frequent_evicted.contains_key k' = false := by
          rw [hk]; exact e3
        rw [f2, f3]
        simp
      · rw [if_neg hk, if_neg hk, if_neg hk]
        have := hex k'
        unfold locCount at this
        exact this

/-- `remove` keeps the four lists well formed and mutually exclusive. -/
theorem remove_props (c : ArcCache K V) (k : K) (hwf : c.Wf)
    (hex : ∀ k', c.locCount k' ≤ 1) :
    (c.remove k).2.Wf ∧ ∀ k', (c.remove k).2.locCount k' ≤ 1 := by
  obtain ⟨w1, w2, w3, w4⟩ := hwf
  have hwfe : ({ c with
      frequent_set := (c.frequent_set.remove k).2,
      recent_set := (c.recent_set.remove k).2,
      frequent_evicted := (c.frequent_evicted.remove k).2,
      recent_evicted := (c.recent_evicted.remove k).2 } : ArcCache K V).Wf :=
    ⟨LruCache.remove_snd c.recent_set k ▸ LruCache.wfKeys_erase _ _ w1,
      LruCache.remove_snd c.recent_evicted k ▸ LruCache.wfKeys_erase _ _ w2,
      LruCache.remove_snd c.frequent_set k ▸ LruCache.wfKeys_erase _ _ w3,
      LruCache.remove_snd c.frequent_evicted k ▸
        LruCache.wfKeys_erase _ _ w4⟩
  have hexe : ∀ k', ({ c with
      frequent_set := (c.frequent_set.remove k).2,
      recent_set := (c.recent_set.remove k).2,
      frequent_evicted := (c.frequent_evicted.remove k).2,
      recent_evicted := (c.recent_evicted.remove k).2 } :
      ArcCache K V).locCount k' ≤ 1 := by
    intro k'
    unfold locCount
    dsimp only
    rw [LruCache.remove_snd, LruCache.remove_snd, LruCache.remove_snd,
      LruCache.remove_snd, LruCache.contains_key_erase,
      LruCache.contains_key_erase, LruCache.contains_key_erase,
      LruCache.contains_key_erase]
    by_cases hk : k' = k
    · rw [if_pos hk, if_pos hk, if_pos hk, if_pos hk]
      simp
    · rw [if_neg hk, if_neg hk, if_neg hk, if_neg hk]
      have := hex k'
      unfold locCount at this
      exact this
  unfold remove
  dsimp only
  cases ho : ((c.frequent_set.remove k).1).or ((c.recent_set.remove k).1) with
  | none => exact ⟨hwfe, hexe⟩
  | some value => exact ⟨hwfe, hexe⟩

/-- `clear` keeps the four lists well formed and mutually exclusive. -/
theorem clear_props (c : ArcCache K V) :
    (c.clear).Wf ∧ ∀ k', (c.clear).locCount k' ≤ 1 := by
  refine ⟨⟨List.nodup_nil, List.nodup_nil, List.nodup_nil, List.nodup_nil⟩,
    ?_⟩
  intro k'
  unfold locCount clear
  simp [LruCache.contains_key_clear]

/-- One public operation keeps the four lists well formed and mutually
exclusive. -/
theorem step_props (c : ArcCache K V) (op : Op K V) (hwf : c.Wf)
    (hex : ∀ k', c.locCount k' ≤ 1) :
    (c.step op).Wf ∧ ∀ k', (c.step op).locCount k' ≤ 1 := by
  cases op with
  | insertOp k v => exact insert_props c k v hwf hex
  | getMutOp k => exact get_mut_props c k hwf hex
  | peekMutOp k => exact ⟨hwf, hex⟩
  | containsKeyOp k => exact ⟨hwf, hex⟩
  | removeOp k => exact remove_props c k hwf hex
  | clearOp => exact clear_props c

/-- Any sequence of public operations keeps the four lists well formed and
mutually exclusive. -/
theorem run_props (c : ArcCache K V) (ops : List (Op K V)) (hwf : c.Wf)
    (hex : ∀ k', c.locCount k' ≤ 1) :
    (c.run ops).Wf ∧ ∀ k', (c.run ops).locCount k' ≤ 1 := by
  induction ops generalizing c with
  | nil => exact ⟨hwf, hex⟩
  | cons op rest ih =>
    have h := step_props c op hwf hex
    exact ih (c.step op) h.1 h.2

theorem ghost_step_p_cap (c : ArcCache K V) (np : Nat) (flag : Bool) :
    (let c1 : ArcCache K V := { c with p := np }
     let c2 := if c1.recent_set.len + c1.frequent_set.len ≥ c1.capacity then
        c1.replace flag else c1
     c2.p = np ∧ c2.capacity = c.capacity) := by
  dsimp only
  by_cases hcond : c.recent_set.len + c.frequent_set.len ≥ c.capacity
  · rw [if_pos hcond]
    obtain ⟨f1, f2, _, _, _⟩ := replace_frame { c with p := np } flag
    exact ⟨f2, f1⟩
  · rw [if_neg hcond]
    exact ⟨rfl, rfl⟩

theorem cold_tail_p_cap (cc : ArcCache K V) (k : K) (v : V) :
    (let c2 := if cc.recent_evicted.len > cc.capacity - cc.p then
        { cc with recent_evicted := (cc.recent_evicted.remove_lru).2,
                  evicted := cc.evicted + 1 } else cc
     let c3 := if c2.frequent_evicted.len > c2.p then
        { c2 with frequent_evicted := (c2.frequent_evicted.remove_lru).2,
                  evicted := c2.evicted + 1 } else c2
     ({ c3 with recent_set := c3.recent_set.insert k v,
                inserted := c3.inserted + 1 } : ArcCache K V).p = cc.p ∧
     ({ c3 with recent_set := c3.recent_set.insert k v,
                inserted := c3.inserted + 1 } : ArcCache K V).capacity =
       cc.capacity) := by
  dsimp only
  by_cases t1 : cc.recent_evicted.len > cc.capacity - cc.p
  · rw [if_pos t1]
    split <;> exact ⟨rfl, rfl⟩
  · rw [if_neg t1]
    split <;> exact ⟨rfl, rfl⟩

/-- `insert` keeps `p` within `[0, capacity]` and never changes `capacity`. -/
theorem insert_p_cap (c : ArcCache K V) (k : K) (v : V)
    (h : c.p ≤ c.capacity) :
    (c.insert k v).2.p ≤ (c.insert k v).2.capacity ∧
    (c.insert k v).2.capacity = c.capacity := by
  by_cases h1 : c.frequent_set.contains_key k = true
  · rw [insert_eq_frequent_hit c k v h1]
    exact ⟨h, rfl⟩
  · simp only [Bool.not_eq_true] at h1
    by_cases h2 : c.recent_set.contains_key k = true
    · rw [insert_eq_recent_hit c k v h1 h2]
      exact ⟨h, rfl⟩
    · simp only [Bool.not_eq_true] at h2
      by_cases h3 : c.frequent_evicted.contains_key k = true
      · rw [insert_eq_fg_hit c k v h1 h2 h3]
        dsimp only
        have hp := ghost_step_p_cap c
          (if (if c.recent_evicted.len > c.frequent_evicted.len then
              c.recent_evicted.len / c.frequent_evicted.len else 1) < c.p then
            c.p - (if c.recent_evicted.len > c.frequent_evicted.len then
              c.recent_evicted.len / c.frequent_evicted.len else 1) else 0)
          true
        dsimp only at hp
        refine ⟨?_, hp.2⟩
        rw [hp.1, hp.2]
        generalize (if c.recent_evicted.len > c.frequent_evicted.len then
            c.recent_evicted.len / c.frequent_evicted.len else 1) = d
        split <;> omega
      · simp only [Bool.not_eq_true] at h3
        by_cases h4 : c.recent_evicted.contains_key k = true
        · rw [insert_eq_rg_hit c k v h1 h2 h3 h4]
          dsimp only
          have hp := ghost_step_p_cap c
            (if (if c.frequent_evicted.len > c.recent_evicted.len then
                c.frequent_evicted.len / c.recent_evicted.len else 1) ≤
                c.capacity - c.p then
              c.p + (if c.frequent_evicted.len > c.recent_evicted.len then
                c.frequent_evicted.len / c.recent_evicted.len else 1)
              else c.capacity)
            false
          dsimp only at hp
          refine ⟨?_, hp.2⟩
          rw [hp.1, hp.2]
          generalize (if c.frequent_evicted.len > c.recent_evicted.len then
              c.frequent_evicted.len / c.recent_evicted.len else 1) = d
          split <;> omega
        · simp only [Bool.not_eq_true] at h4
          rw [insert_eq_cold c k v h1 h2 h3 h4]
          dsimp only
          by_cases hcond : c.recent_set.len + c.frequent_set.len ≥ c.capacity
          · rw [if_pos hcond]
            have hp := cold_tail_p_cap (c.replace false) k v
            dsimp only at hp
            obtain ⟨f1, f2, _, _, _⟩ := replace_frame c false
            rw [hp.1, hp.2, f1, f2]
            exact ⟨h, rfl⟩
          · rw [if_neg hcond]
            have hp := cold_tail_p_cap c k v
            dsimp only at hp
            rw [hp.1, hp.2]
            exact ⟨h, rfl⟩

/-- `get_mut` only touches the two live lists. -/
theorem get_mut_frame (c : ArcCache K V) (k : K) :
    (c.get_mut k).2.recent_evicted = c.recent_evicted ∧
    (c.get_mut k).2.frequent_evicted = c.frequent_evicted ∧
    (c.get_mut k).2.capacity = c.capacity ∧
    (c.get_mut k).2.p = c.p ∧
    (c.get_mut k).2.inserted = c.inserted ∧
    (c.get_mut k).2.evicted = c.evicted ∧
    (c.get_mut k).2.removed = c.removed := by
  unfold get_mut
  cases hl : c.recent_set.lookup k <;>
    simp [LruCache.remove, hl]

/-- `remove` does not touch `capacity`, `p`, `inserted` or `evicted`. -/
theorem remove_frame (c : ArcCache K V) (k : K) :
    (c.remove k).2.capacity = c.capacity ∧ (c.remove k).2.p = c.p ∧
    (c.remove k).2.inserted = c.inserted ∧
    (c.remove k).2.evicted = c.evicted := by
  unfold remove
  dsimp only
  cases ho : ((c.frequent_set.remove k).1).or ((c.recent_set.remove k).1) <;>
    exact ⟨rfl, rfl, rfl, rfl⟩

/-- One public operation keeps `p` within `[0, capacity]` and never changes
`capacity`. -/
theorem step_p_cap (c : ArcCache K V) (op : Op K V) (h : c.p ≤ c.capacity) :
    (c.step op).p ≤ (c.step op).capacity ∧
    (c.step op).capacity = c.capacity := by
  cases op with
  | insertOp k v => exact insert_p_cap c k v h
  | getMutOp k =>
    obtain ⟨_, _, f3, f4, _, _, _⟩ := get_mut_frame c k
    simp only [step]
    rw [f3, f4]
    exact ⟨h, rfl⟩
  | peekMutOp k => exact ⟨h, rfl⟩
  | containsKeyOp k => exact ⟨h, rfl⟩
  | removeOp k =>
    obtain ⟨f1, f2, _, _⟩ := remove_frame c k
    simp only [step]
    rw [f1, f2]
    exact ⟨h, rfl⟩
  | clearOp => exact ⟨h, rfl⟩

/-- Any sequence of public operations keeps `p` within `[0, capacity]` and
never changes `capacity`. -/
theorem run_p_cap (c : ArcCache K V) (ops : List (Op K V))
    (h : c.p ≤ c.capacity) :
    (c.run ops).p ≤ (c.run ops).capacity ∧
    (c.run ops).capacity = c.capacity := by
  induction ops generalizing c with
  | nil => exact ⟨h, rfl⟩
  | cons op rest ih =>
    have hs := step_p_cap c op h
    have := ih (c.step op) hs.1
    exact ⟨this.1, this.2.trans hs.2⟩

/-- What a successful construction guarantees. -/
theorem new_ok (capacity : Nat) (c0 : ArcCache K V)
    (h : ArcCache.new capacity = Except.ok c0) :
    c0.Wf ∧ (∀ k, c0.locCount k ≤ 1) ∧ c0.p = 0 ∧
    c0.capacity = capacity ∧ 1 ≤ capacity := by
  unfold new at h
  by_cases hc : capacity = 0
  · rw [if_pos hc] at h
    cases h
  · rw [if_neg hc] at h
    cases h
    refine ⟨⟨List.nodup_nil, List.nodup_nil, List.nodup_nil,
      List.nodup_nil⟩, ?_, rfl, rfl, Nat.pos_of_ne_zero hc⟩
    intro k
    unfold locCount
    simp [LruCache.contains_key_new]

end ArcCache

namespace ArcCache

variable {K V : Type} [DecidableEq K]

theorem ghost_step_counters (c : ArcCache K V) (np : Nat) (flag : Bool) :
    (let c1 : ArcCache K V := { c with p := np }
     let c2 := if c1.recent_set.len + c1.frequent_set.len ≥ c1.capacity then
        c1.replace flag else c1
     c2.inserted = c.inserted ∧ c2.evicted = c.evicted ∧
     c2.removed = c.removed) := by
  dsimp only
  by_cases hcond : c.recent_set.len + c.frequent_set.len ≥ c.capacity
  · rw [if_pos hcond]
    obtain ⟨_, _, f3, f4, f5⟩ := replace_frame { c with p := np } flag
    exact ⟨f3, f4, f5⟩
  · rw [if_neg hcond]
    exact ⟨rfl, rfl, rfl⟩

end ArcCache

/-!
## Claim theorems
-/

/-- C1: the claimed invariant `|recent| + |frequent| ≤ capacity` FAILS on the
code.  With capacity 1, inserting A, then B, then A again (A is then a recent
ghost) drives `p` to 1, makes the internal `replace` pick the empty frequent
list as its victim (a silent no-op), and then admits A into `frequent` while B
is still in `recent`: the cache ends up holding 2 live entries with capacity
1.  This theorem evaluates the code at that failing input. -/
theorem C1_size_bound_violated_cex :
    (let c0 : ArcCache Nat Nat := ⟨⟨[]⟩, ⟨[]⟩, ⟨[]⟩, ⟨[]⟩, 1, 0, 0, 0, 0⟩
     let s := c0.run [Op.insertOp 1 10, Op.insertOp 2 20, Op.insertOp 1 30]
     ArcCache.new 1 = Except.ok c0 ∧
     s.contains_key 1 = true ∧ s.contains_key 2 = true ∧
     s.recent_len + s.frequent_len = 2 ∧ s.capacity = 1 ∧
     ¬(s.recent_len + s.frequent_len ≤ s.capacity)) := by
  dsimp only
  exact ⟨rfl, by decide, by decide, by decide, by decide, by decide⟩

/-- C4: after any sequence of public operations on a freshly constructed
cache, `p ≤ capacity` holds (in this `Nat` model `0 ≤ p` is automatic, and
`p ≤ capacity` is exactly the fact that the `capacity - p` computed by the
ghost-trim step of a cold insert does not underflow), and `capacity` never
changes. -/
theorem C4_adaptation_bound {K V : Type} [DecidableEq K] (capacity : Nat)
    (c0 : ArcCache K V) (h : ArcCache.new capacity = Except.ok c0)
    (ops : List (Op K V)) :
    (c0.run ops).p ≤ (c0.run ops).capacity ∧
    (c0.run ops).capacity = capacity := by
  obtain ⟨_, _, hp, hcap, _⟩ := ArcCache.new_ok capacity c0 h
  have hb := ArcCache.run_p_cap c0 ops (by rw [hp]; exact Nat.zero_le _)
  exact ⟨hb.1, hb.2.trans hcap⟩

/-- Witness for C4 at a concrete construction and operation list. -/
theorem C4_adaptation_bound_witness :
    (ArcCache.run (⟨⟨[]⟩, ⟨[]⟩, ⟨[]⟩, ⟨[]⟩, 2, 0, 0, 0, 0⟩ : ArcCache Nat Nat)
        [Op.insertOp 1 10, Op.insertOp 2 20, Op.insertOp 3 30]).p ≤
      (ArcCache.run (⟨⟨[]⟩, ⟨[]⟩, ⟨[]⟩, ⟨[]⟩, 2, 0, 0, 0, 0⟩ :
          ArcCache Nat Nat)
        [Op.insertOp 1 10, Op.insertOp 2 20, Op.insertOp 3 30]).capacity ∧
    (ArcCache.run (⟨⟨[]⟩, ⟨[]⟩, ⟨[]⟩, ⟨[]⟩, 2, 0, 0, 0, 0⟩ : ArcCache Nat Nat)
        [Op.insertOp 1 10, Op.insertOp 2 20, Op.insertOp 3 30]).capacity =
      2 :=
  C4_adaptation_bound 2 _ (by rfl)
    [Op.insertOp 1 10, Op.insertOp 2 20, Op.insertOp 3 30]

/-- C5: mutual exclusion: after any sequence of public operations on a
freshly constructed cache, every key lives in at most one of the four
lists. -/
theorem C5_mutual_exclusion {K V : Type} [DecidableEq K] (capacity : Nat)
    (c0 : ArcCache K V) (h : ArcCache.new capacity = Except.ok c0)
    (ops : List (Op K V)) (k : K) :
    (c0.run ops).locCount k ≤ 1 := by
  obtain ⟨hwf, hex, _, _, _⟩ := ArcCache.new_ok capacity c0 h
  exact (ArcCache.run_props c0 ops hwf hex).2 k

/-- Witness for C5 at a concrete construction and operation list. -/
theorem C5_mutual_exclusion_witness :
    (ArcCache.run (⟨⟨[]⟩, ⟨[]⟩, ⟨[]⟩, ⟨[]⟩, 2, 0, 0, 0, 0⟩ : ArcCache Nat Nat)
        [Op.insertOp 1 10, Op.insertOp 2 20, Op.insertOp 1 30,
          Op.removeOp 2]).locCount 1 ≤ 1 :=
  C5_mutual_exclusion 2 _ (by rfl)
    [Op.insertOp 1 10, Op.insertOp 2 20, Op.insertOp 1 30, Op.removeOp 2] 1

/-- C6: cold-miss eviction at capacity 2: inserting three distinct keys in
order evicts the first as least recently used, keeps the other two, and
leaves `p` at 0. -/
theorem C6_cold_miss_eviction {K V : Type} [DecidableEq K] (a b c : K)
    (va vb vc : V) (hab : a ≠ b) (hac : a ≠ c) (hbc : b ≠ c)
    (c0 : ArcCache K V) (h : ArcCache.new 2 = Except.ok c0) :
    (c0.run [Op.insertOp a va, Op.insertOp b vb, Op.insertOp c vc]
      ).contains_key c = true ∧
    (c0.run [Op.insertOp a va, Op.insertOp b vb, Op.insertOp c vc]
      ).contains_key b = true ∧
    (c0.run [Op.insertOp a va, Op.insertOp b vb, Op.insertOp c vc]
      ).contains_key a = false ∧
    (c0.run [Op.insertOp a va, Op.insertOp b vb, Op.insertOp c vc]).p = 0 := by
  unfold ArcCache.new at h
  rw [if_neg (by decide)] at h
  cases h
  simp [ArcCache.run, ArcCache.step, ArcCache.insert, ArcCache.replace,
    ArcCache.contains_key, LruCache.contains_key, LruCache.insert,
    LruCache.eraseKey, LruCache.remove, LruCache.remove_lru, LruCache.len,
    LruCache.lookup, LruCache.new, hab, hac, hbc, Ne.symm hab, Ne.symm hac,
    Ne.symm hbc, List.foldl]

/-- Witness for C6 with keys 1, 2, 3. -/
theorem C6_cold_miss_eviction_witness :
    (ArcCache.run (⟨⟨[]⟩, ⟨[]⟩, ⟨[]⟩, ⟨[]⟩, 2, 0, 0, 0, 0⟩ : ArcCache Nat Nat)
        [Op.insertOp 1 10, Op.insertOp 2 20, Op.insertOp 3 30]
      ).contains_key 3 = true ∧
    (ArcCache.run (⟨⟨[]⟩, ⟨[]⟩, ⟨[]⟩, ⟨[]⟩, 2, 0, 0, 0, 0⟩ : ArcCache Nat Nat)
        [Op.insertOp 1 10, Op.insertOp 2 20, Op.insertOp 3 30]
      ).contains_key 2 = true ∧
    (ArcCache.run (⟨⟨[]⟩, ⟨[]⟩, ⟨[]⟩, ⟨[]⟩, 2, 0, 0, 0, 0⟩ : ArcCache Nat Nat)
        [Op.insertOp 1 10, Op.insertOp 2 20, Op.insertOp 3 30]
      ).contains_key 1 = false ∧
    (ArcCache.run (⟨⟨[]⟩, ⟨[]⟩, ⟨[]⟩, ⟨[]⟩, 2, 0, 0, 0, 0⟩ : ArcCache Nat Nat)
        [Op.insertOp 1 10, Op.insertOp 2 20, Op.insertOp 3 30]).p = 0 :=
  C6_cold_miss_eviction 1 2 3 10 20 30 (by decide) (by decide) (by decide) _
    (by rfl)

/-- C9: `clear` empties all four lists, so the three length queries return 0,
while `p`, `capacity` and the three lifetime counters are unchanged. -/
theorem C9_clear_frame {K V : Type} [DecidableEq K] (c : ArcCache K V) :
    (c.clear).len = 0 ∧ (c.clear).recent_len = 0 ∧
    (c.clear).frequent_len = 0 ∧
    (c.clear).recent_set.entries = [] ∧
    (c.clear).recent_evicted.entries = [] ∧
    (c.clear).frequent_set.entries = [] ∧
    (c.clear).frequent_evicted.entries = [] ∧
    (c.clear).p = c.p ∧ (c.clear).capacity = c.capacity ∧
    (c.clear).inserted = c.inserted ∧ (c.clear).evicted = c.evicted ∧
    (c.clear).removed = c.removed :=
  ⟨rfl, rfl, rfl, rfl, rfl, rfl, rfl, rfl, rfl, rfl, rfl, rfl⟩

/-- The conditional delta of the source equals the `max` form used by the
spec, whenever the divisor list is nonempty. -/
theorem delta_eq_max (a b : Nat) (hb : 0 < b) :
    (if a > b then a / b else 1) = max 1 (a / b) := by
  by_cases hgt : a > b
  · rw [if_pos hgt]
    have h1 : 1 ≤ a / b := (Nat.one_le_div_iff hb).mpr (le_of_lt hgt)
    exact (Nat.max_eq_right h1).symm
  · rw [if_neg hgt]
    push_neg at hgt
    have h1 : a / b ≤ 1 := by
      calc a / b ≤ b / b := Nat.div_le_div_right hgt
        _ = 1 := Nat.div_self hb
    exact (Nat.max_eq_left h1).symm

/-- C2: an insert whose key sits in the frequent ghost list (and nowhere
live): the divisor of the delta computation is nonzero, the result is true,
the new state is exactly "clamp p down by `delta = max 1 (|recentGhost| /
|frequentGhost|)`, run `replace true` iff the live lists are full, drop the
key from the frequent ghost list and insert it into the frequent list", the
new `p` is `max 0 (p - delta)`, and the key ends up in `frequent` (with the
new value) and no longer in `frequentGhost`. -/
theorem C2_frequent_ghost_hit {K V : Type} [DecidableEq K]
    (c : ArcCache K V) (k : K) (v : V)
    (h1 : c.frequent_set.contains_key k = false)
    (h2 : c.recent_set.contains_key k = false)
    (h3 : c.frequent_evicted.contains_key k = true) :
    0 < c.frequent_evicted.len ∧
    (c.insert k v).1 = true ∧
    ((c.insert k v).2.p : Int) =
      max 0 ((c.p : Int) -
        (max 1 (c.recent_evicted.len / c.frequent_evicted.len) : Nat)) ∧
    (c.insert k v).2 =
      (let delta := max 1 (c.recent_evicted.len / c.frequent_evicted.len)
       let c1 : ArcCache K V := { c with p := c.p - delta }
       let c2 := if c1.recent_set.len + c1.frequent_set.len ≥ c1.capacity then
          c1.replace true else c1
       { c2 with frequent_evicted := c2.frequent_evicted.eraseKey k,
                 frequent_set := c2.frequent_set.insert k v }) ∧
    (c.insert k v).2.frequent_evicted.contains_key k = false ∧
    (c.insert k v).2.frequent_set.contains_key k = true ∧
    (c.insert k v).2.frequent_set.lookup k = some v := by
  have hlen : 0 < c.frequent_evicted.len :=
    LruCache.len_pos_of_contains _ _ h3
  have hdelta := delta_eq_max c.recent_evicted.len c.frequent_evicted.len hlen
  rw [ArcCache.insert_eq_fg_hit c k v h1 h2 h3]
  dsimp only
  rw [hdelta, LruCache.remove_snd]
  generalize hd : max 1 (c.recent_evicted.len / c.frequent_evicted.len) = d
  have hd1 : 1 ≤ d := by rw [← hd]; exact Nat.le_max_left _ _
  have hp2 : (if d < c.p then c.p - d else 0) = c.p - d := by
    split <;> omega
  rw [hp2]
  have hpc := ArcCache.ghost_step_p_cap c (c.p - d) true
  dsimp only at hpc
  refine ⟨hlen, rfl, ?_, rfl, ?_, ?_, ?_⟩
  · rw [hpc.1]
    omega
  · rw [LruCache.contains_key_erase, if_pos rfl]
  · rw [LruCache.contains_key_insert, if_pos rfl]
  · rw [LruCache.lookup_insert_self]

/-- C3: an insert whose key sits in the recent ghost list (and nowhere else):
the divisor of the delta computation is nonzero, the result is true, the new
state is exactly "clamp p up by `delta = max 1 (|frequentGhost| /
|recentGhost|)` (to at most `capacity`), run `replace false` iff the live
lists are full, drop the key from the recent ghost list and insert it into
the frequent list", the new `p` is `min capacity (p + delta)`, and the key
ends up in `frequent` (with the new value) and no longer in `recentGhost`. -/
theorem C3_recent_ghost_hit {K V : Type} [DecidableEq K]
    (c : ArcCache K V) (k : K) (v : V)
    (h1 : c.frequent_set.contains_key k = false)
    (h2 : c.recent_set.contains_key k = false)
    (h3 : c.frequent_evicted.contains_key k = false)
    (h4 : c.recent_evicted.contains_key k = true) :
    0 < c.recent_evicted.len ∧
    (c.insert k v).1 = true ∧
    (c.insert k v).2.p =
      min c.capacity
        (c.p + max 1 (c.frequent_evicted.len / c.recent_evicted.len)) ∧
    (c.insert k v).2 =
      (let delta := max 1 (c.frequent_evicted.len / c.recent_evicted.len)
       let c1 : ArcCache K V := { c with p := min c.capacity (c.p + delta) }
       let c2 := if c1.recent_set.len + c1.frequent_set.len ≥ c1.capacity then
          c1.replace false else c1
       { c2 with recent_evicted := c2.recent_evicted.eraseKey k,
                 frequent_set := c2.frequent_set.insert k v }) ∧
    (c.insert k v).2.recent_evicted.contains_key k = false ∧
    (c.insert k v).2.frequent_set.contains_key k = true ∧
    (c.insert k v).2.frequent_set.lookup k = some v := by
  have hlen : 0 < c.recent_evicted.len :=
    LruCache.len_pos_of_contains _ _ h4
  have hdelta := delta_eq_max c.frequent_evicted.len c.recent_evicted.len hlen
  rw [ArcCache.insert_eq_rg_hit c k v h1 h2 h3 h4]
  dsimp only
  rw [hdelta, LruCache.remove_snd]
  generalize hd : max 1 (c.frequent_evicted.len / c.recent_evicted.len) = d
  have hd1 : 1 ≤ d := by rw [← hd]; exact Nat.le_max_left _ _
  have hp2 : (if d ≤ c.capacity - c.p then c.p + d else c.capacity) =
      min c.capacity (c.p + d) := by
    split <;> omega
  rw [hp2]
  have hpc := ArcCache.ghost_step_p_cap c (min c.capacity (c.p + d)) false
  dsimp only at hpc
  refine ⟨hlen, rfl, ?_, rfl, ?_, ?_, ?_⟩
  · rw [hpc.1]
  · rw [LruCache.contains_key_erase, if_pos rfl]
  · rw [LruCache.contains_key_insert, if_pos rfl]
  · rw [LruCache.lookup_insert_self]

/-- Witness for C2 at a concrete cache whose frequent ghost list holds the
key. -/
theorem C2_frequent_ghost_hit_witness :
    ((⟨⟨[(5, 50)]⟩, ⟨[(9, ())]⟩, ⟨[]⟩, ⟨[(7, ())]⟩, 3, 2, 0, 0, 0⟩ :
        ArcCache Nat Nat).insert 7 100).1 = true :=
  (C2_frequent_ghost_hit _ 7 100 (by decide) (by decide) (by decide)).2.1

/-- Witness for C3 at a concrete cache whose recent ghost list holds the
key. -/
theorem C3_recent_ghost_hit_witness :
    ((⟨⟨[(5, 50)]⟩, ⟨[(7, ())]⟩, ⟨[]⟩, ⟨[(9, ())]⟩, 3, 1, 0, 0, 0⟩ :
        ArcCache Nat Nat).insert 7 100).1 = true :=
  (C3_recent_ghost_hit _ 7 100 (by decide) (by decide) (by decide)
    (by decide)).2.1

/-- C7: `remove` purges the key from all four lists; the result carries the
value exactly when the key was live; the removed counter is bumped by 1
exactly in that case; `p`, `inserted` and `evicted` are untouched; and when
the key was in none of the four lists the state is completely unchanged and
the result is empty. -/
theorem C7_remove_purges {K V : Type} [DecidableEq K] (c : ArcCache K V)
    (k : K) :
    (c.remove k).2.recent_set.contains_key k = false ∧
    (c.remove k).2.frequent_set.contains_key k = false ∧
    (c.remove k).2.recent_evicted.contains_key k = false ∧
    (c.remove k).2.frequent_evicted.contains_key k = false ∧
    ((c.remove k).1).isSome =
      (c.frequent_set.contains_key k || c.recent_set.contains_key k) ∧
    (c.remove k).2.removed = c.removed +
      (if c.frequent_set.contains_key k || c.recent_set.contains_key k
        then 1 else 0) ∧
    (c.remove k).2.p = c.p ∧ (c.remove k).2.capacity = c.capacity ∧
    (c.remove k).2.inserted = c.inserted ∧
    (c.remove k).2.evicted = c.evicted ∧
    (if c.recent_set.contains_key k || c.frequent_set.contains_key k ||
        c.recent_evicted.contains_key k || c.frequent_evicted.contains_key k
      then True
      else (c.remove k).2 = c ∧ (c.remove k).1 = none) := by
  unfold ArcCache.remove
  dsimp only
  cases hf : c.frequent_set.lookup k with
  | some vf =>
    have hcf : c.frequent_set.contains_key k = true := by
      rw [← LruCache.lookup_isSome, hf]; rfl
    have hor : ((c.frequent_set.remove k).1).or ((c.recent_set.remove k).1) =
        some vf := by
      rw [LruCache.remove_fst, hf]; rfl
    rw [hor]
    dsimp only
    refine ⟨?_, ?_, ?_, ?_, ?_, ?_, rfl, rfl, rfl, rfl, ?_⟩
    · rw [LruCache.remove_snd, LruCache.contains_key_erase, if_pos rfl]
    · rw [LruCache.remove_snd, LruCache.contains_key_erase, if_pos rfl]
    · rw [LruCache.remove_snd, LruCache.contains_key_erase, if_pos rfl]
    · rw [LruCache.remove_snd, LruCache.contains_key_erase, if_pos rfl]
    · rw [hcf]
      simp
    · rw [hcf]
      simp
    · split
      · trivial
      · rename_i hcond
        exact absurd (by rw [hcf]; simp) hcond
  | none =>
    have hcf : c.frequent_set.contains_key k = false := by
      rw [← LruCache.lookup_isSome, hf]; rfl
    cases hr : c.recent_set.lookup k with
    | some vr =>
      have hcr : c.recent_set.contains_key k = true := by
        rw [← LruCache.lookup_isSome, hr]; rfl
      have hor : ((c.frequent_set.remove k).1).or
          ((c.recent_set.remove k).1) = some vr := by
        rw [LruCache.remove_fst, LruCache.remove_fst, hf, hr, Option.none_or]
      rw [hor]
      dsimp only
      refine ⟨?_, ?_, ?_, ?_, ?_, ?_, rfl, rfl, rfl, rfl, ?_⟩
      · rw [LruCache.remove_snd, LruCache.contains_key_erase, if_pos rfl]
      · rw [LruCache.remove_snd, LruCache.contains_key_erase, if_pos rfl]
      · rw [LruCache.remove_snd, LruCache.contains_key_erase, if_pos rfl]
      · rw [LruCache.remove_snd, LruCache.contains_key_erase, if_pos rfl]
      · rw [hcf, hcr]
        rfl
      · rw [hcf, hcr]
        simp
      · split
        · trivial
        · rename_i hcond
          exact absurd (by rw [hcr]; simp) hcond
    | none =>
      have hcr : c.recent_set.contains_key k = false := by
        rw [← LruCache.lookup_isSome, hr]; rfl
      have hor : ((c.frequent_set.remove k).1).or
          ((c.recent_set.remove k).1) = none := by
        rw [LruCache.remove_fst, LruCache.remove_fst, hf, hr, Option.none_or]
      rw [hor]
      dsimp only
      refine ⟨?_, ?_, ?_, ?_, ?_, ?_, rfl, rfl, rfl, rfl, ?_⟩
      · rw [LruCache.remove_snd, LruCache.contains_key_erase, if_pos rfl]
      · rw [LruCache.remove_snd, LruCache.contains_key_erase, if_pos rfl]
      · rw [LruCache.remove_snd, LruCache.contains_key_erase, if_pos rfl]
      · rw [LruCache.remove_snd, LruCache.contains_key_erase, if_pos rfl]
      · rw [hcf, hcr]
        rfl
      · rw [hcf, hcr]
        simp
      · split
        · trivial
        · rename_i hcond
          simp only [Bool.not_eq_true, Bool.or_eq_false_iff] at hcond
          obtain ⟨⟨⟨_, _⟩, hrg⟩, hfg⟩ := hcond
          refine ⟨?_, rfl⟩
          rw [LruCache.remove_snd, LruCache.remove_snd, LruCache.remove_snd,
            LruCache.remove_snd, LruCache.eraseKey_eq_self _ _ hcf,
            LruCache.eraseKey_eq_self _ _ hcr,
            LruCache.eraseKey_eq_self _ _ hfg,
            LruCache.eraseKey_eq_self _ _ hrg]

/-- C8: `get_mut` promotes a key found in `recent` into `frequent` (value
intact) and answers from `frequent`; a key already in `frequent` is answered
directly; a key in neither live list yields an empty result; and in every
case `p`, both ghost lists and the three counters are untouched, so ghost
membership has no effect. -/
theorem C8_get_mut_promotes {K V : Type} [DecidableEq K] (c : ArcCache K V)
    (k : K) :
    (c.get_mut k).2.p = c.p ∧
    (c.get_mut k).2.recent_evicted = c.recent_evicted ∧
    (c.get_mut k).2.frequent_evicted = c.frequent_evicted ∧
    (c.get_mut k).2.inserted = c.inserted ∧
    (c.get_mut k).2.evicted = c.evicted ∧
    (c.get_mut k).2.removed = c.removed ∧
    (if c.recent_set.contains_key k && !(c.frequent_set.contains_key k) then
      (c.get_mut k).1 = c.recent_set.lookup k ∧
      (c.get_mut k).2.frequent_set.lookup k = c.recent_set.lookup k ∧
      (c.get_mut k).2.recent_set.contains_key k = false ∧
      (c.get_mut k).2.frequent_set.contains_key k = true
     else True) ∧
    (if c.frequent_set.contains_key k && !(c.recent_set.contains_key k) then
      (c.get_mut k).1 = c.frequent_set.lookup k ∧
      (c.get_mut k).2.frequent_set.contains_key k = true
     else True) ∧
    (if !(c.recent_set.contains_key k) && !(c.frequent_set.contains_key k)
      then (c.get_mut k).1 = none else True) := by
  obtain ⟨f1, f2, f3, f4, f5, f6, f7⟩ := ArcCache.get_mut_frame c k
  have hA : c.recent_set.contains_key k = true →
      (c.get_mut k).1 = c.recent_set.lookup k ∧
      (c.get_mut k).2.frequent_set.lookup k = c.recent_set.lookup k ∧
      (c.get_mut k).2.recent_set.contains_key k = false ∧
      (c.get_mut k).2.frequent_set.contains_key k = true := by
    intro hcr
    rw [← LruCache.lookup_isSome] at hcr
    cases hl : c.recent_set.lookup k with
    | none => rw [hl] at hcr; simp at hcr
    | some value =>
      have hgm : c.get_mut k = (some value,
          { c with recent_set := c.recent_set.eraseKey k,
                   frequent_set :=
                     (c.frequent_set.insert k value).insert k value }) := by
        unfold ArcCache.get_mut
        simp only [LruCache.remove, hl]
        simp only [LruCache.get_mut, LruCache.lookup_insert_self]
      rw [hgm]
      dsimp only
      refine ⟨rfl, ?_, ?_, ?_⟩
      · rw [LruCache.lookup_insert_self]
      · rw [LruCache.contains_key_erase, if_pos rfl]
      · rw [LruCache.contains_key_insert, if_pos rfl]
  have hB : c.recent_set.contains_key k = false →
      c.frequent_set.contains_key k = true →
      (c.get_mut k).1 = c.frequent_set.lookup k ∧
      (c.get_mut k).2.frequent_set.contains_key k = true := by
    intro hcr hcq
    have hl : c.recent_set.lookup k = none :=
      LruCache.lookup_eq_none _ _ hcr
    rw [← LruCache.lookup_isSome] at hcq
    cases hl2 : c.frequent_set.lookup k with
    | none => rw [hl2] at hcq; simp at hcq
    | some value =>
      have hgm : c.get_mut k = (some value,
          { c with recent_set := c.recent_set.eraseKey k,
                   frequent_set := c.frequent_set.insert k value }) := by
        unfold ArcCache.get_mut
        simp only [LruCache.remove, hl]
        simp only [LruCache.get_mut, hl2]
      rw [hgm]
      dsimp only
      refine ⟨rfl, ?_⟩
      rw [LruCache.contains_key_insert, if_pos rfl]
  have hC : c.recent_set.contains_key k = false →
      c.frequent_set.contains_key k = false → (c.get_mut k).1 = none := by
    intro hcr hcq
    have hl : c.recent_set.lookup k = none :=
      LruCache.lookup_eq_none _ _ hcr
    have hl2 : c.frequent_set.lookup k = none :=
      LruCache.lookup_eq_none _ _ hcq
    have hgm : c.get_mut k = (none,
        { c with recent_set := c.recent_set.eraseKey k }) := by
      unfold ArcCache.get_mut
      simp only [LruCache.remove, hl]
      simp only [LruCache.get_mut, hl2]
    rw [hgm]
  refine ⟨f4, f1, f2, f5, f6, f7, ?_, ?_, ?_⟩
  · split
    · rename_i hcond
      simp only [Bool.and_eq_true, Bool.not_eq_true'] at hcond
      exact hA hcond.1
    · trivial
  · split
    · rename_i hcond
      simp only [Bool.and_eq_true, Bool.not_eq_true'] at hcond
      exact hB hcond.2 hcond.1
    · trivial
  · split
    · rename_i hcond
      simp only [Bool.and_eq_true, Bool.not_eq_true'] at hcond
      exact hC hcond.1 hcond.2
    · trivial



/-- C10: the internal `replace` step never changes the `inserted`, `evicted`
or `removed` counters; neither `get_mut`, `remove` nor `clear` changes
`evicted`; an insert that hits any of the four lists leaves `evicted`
unchanged; and a cold-miss insert increases `evicted` by exactly the number
of ghost entries it trims (one per trimmed entry). -/
theorem C10_counter_frame {K V : Type} [DecidableEq K] (c : ArcCache K V)
    (flag : Bool) (k : K) (v : V) :
    (c.replace flag).inserted = c.inserted ∧
    (c.replace flag).evicted = c.evicted ∧
    (c.replace flag).removed = c.removed ∧
    (c.get_mut k).2.evicted = c.evicted ∧
    (c.remove k).2.evicted = c.evicted ∧
    (c.clear).evicted = c.evicted ∧
    ((c.frequent_set.contains_key k || c.recent_set.contains_key k ||
      c.frequent_evicted.contains_key k || c.recent_evicted.contains_key k) =
        true → (c.insert k v).2.evicted = c.evicted) ∧
    ((c.frequent_set.contains_key k || c.recent_set.contains_key k ||
      c.frequent_evicted.contains_key k || c.recent_evicted.contains_key k) =
        false →
      (c.insert k v).2.evicted = c.evicted + ArcCache.coldTrimCount c) := by
  obtain ⟨_, _, r3, r4, r5⟩ := ArcCache.replace_frame c flag
  obtain ⟨_, _, _, _, _, g6, _⟩ := ArcCache.get_mut_frame c k
  obtain ⟨_, _, _, m4⟩ := ArcCache.remove_frame c k
  refine ⟨r3, r4, r5, g6, m4, rfl, ?_, ?_⟩
  · intro hmem
    by_cases h1 : c.frequent_set.contains_key k = true
    · rw [ArcCache.insert_eq_frequent_hit c k v h1]
    · simp only [Bool.not_eq_true] at h1
      by_cases h2 : c.recent_set.contains_key k = true
      · rw [ArcCache.insert_eq_recent_hit c k v h1 h2]
      · simp only [Bool.not_eq_true] at h2
        by_cases h3 : c.frequent_evicted.contains_key k = true
        · rw [ArcCache.insert_eq_fg_hit c k v h1 h2 h3]
          dsimp only
          have hgc := ArcCache.ghost_step_counters c
            (if (if c.recent_evicted.len > c.frequent_evicted.len then
                c.recent_evicted.len / c.frequent_evicted.len else 1) < c.p
              then c.p - (if c.recent_evicted.len > c.frequent_evicted.len
                then c.recent_evicted.len / c.frequent_evicted.len else 1)
              else 0)
            true
          dsimp only at hgc
          exact hgc.2.1
        · simp only [Bool.not_eq_true] at h3
          by_cases h4 : c.recent_evicted.contains_key k = true
          · rw [ArcCache.insert_eq_rg_hit c k v h1 h2 h3 h4]
            dsimp only
            have hgc := ArcCache.ghost_step_counters c
              (if (if c.frequent_evicted.len > c.recent_evicted.len then
                  c.frequent_evicted.len / c.recent_evicted.len else 1) ≤
                  c.capacity - c.p
                then c.p + (if c.frequent_evicted.len > c.recent_evicted.len
                  then c.frequent_evicted.len / c.recent_evicted.len else 1)
                else c.capacity)
              false
            dsimp only at hgc
            exact hgc.2.1
          · simp only [Bool.not_eq_true] at h4
            rw [h1, h2, h3, h4] at hmem
            simp at hmem
  · intro hnone
    simp only [Bool.or_eq_false_iff] at hnone
    obtain ⟨⟨⟨h1, h2⟩, h3⟩, h4⟩ := hnone
    rw [ArcCache.insert_eq_cold c k v h1 h2 h3 h4]
    unfold ArcCache.coldTrimCount
    dsimp only
    by_cases hcond : c.recent_set.len + c.frequent_set.len ≥ c.capacity
    · rw [if_pos hcond]
      obtain ⟨_, _, _, f4, _⟩ := ArcCache.replace_frame c false
      by_cases t1 : (c.replace false).recent_evicted.len >
          (c.replace false).capacity - (c.replace false).p
      · rw [if_pos t1]
        dsimp only
        by_cases t2 : (c.replace false).frequent_evicted.len >
            (c.replace false).p
        · rw [if_pos t2]
          dsimp only
          rw [f4, if_pos t1, if_pos t2]
        · rw [if_neg t2]
          dsimp only
          rw [f4, if_pos t1, if_neg t2]
      · rw [if_neg t1]
        by_cases t2 : (c.replace false).frequent_evicted.len >
            (c.replace false).p
        · rw [if_pos t2]
          dsimp only
          rw [f4, if_neg t1, if_pos t2]
        · rw [if_neg t2]
          rw [f4, if_neg t1, if_neg t2]
          omega
    · rw [if_neg hcond]
      by_cases t1 : c.recent_evicted.len > c.capacity - c.p
      · rw [if_pos t1]
        dsimp only
        by_cases t2 : c.frequent_evicted.len > c.p
        · rw [if_pos t2]
          dsimp only
          rw [if_pos t1, if_pos t2]
        · rw [if_neg t2]
          dsimp only
          rw [if_pos t1, if_neg t2]
      · rw [if_neg t1]
        by_cases t2 : c.frequent_evicted.len > c.p
        · rw [if_pos t2]
          dsimp only
          rw [if_neg t1, if_pos t2]
        · rw [if_neg t2]
          rw [if_neg t1, if_neg t2]
          omega
